import Mathlib

/-!
Shallow embedding of the MelbourneGenomics/anonymise sources.

Paths and filenames are modelled as `List Char`; Python `str.split(sep)`,
`str.replace`, `os.path.split` and `os.path.join` (POSIX) are embedded
below.  Fatal `exit(code)` calls are modelled as `Except`/`Option`
failures carrying a distinct error label, and functions that print are
modelled as returning the printed lines alongside their result.
-/

/-- Python `s.split(sep)` for a one-character separator: splits on every
occurrence of `sep` and keeps empty fields, so the result is never empty
(source: `get_files.py`, `Data_filename.get_fields` / `FASTQ_filename.get_fields`). -/
def splitOnChar (sep : Char) : List Char → List (List Char)
  | [] => [[]]
  | c :: cs =>
    match splitOnChar sep cs with
    | [] => [[]]
    | f :: rest => if c = sep then [] :: f :: rest else (c :: f) :: rest

/-- Joining fields with a one-character separator; inverse of `splitOnChar`. -/
def joinSep (sep : Char) : List (List Char) → List Char
  | [] => []
  | [f] => f
  | f :: rest => f ++ sep :: joinSep sep rest

/-- Concatenation of fields each followed by the separator, the shape built by
the accumulation loops of `FASTQ_filename.replace_field` (`get_files.py:166-172`). -/
def sepTerminated (sep : Char) (fields : List (List Char)) : List Char :=
  (fields.map (fun f => f ++ [sep])).flatten

/-- Python `s.rstrip("/")`. -/
def rstripSlash (l : List Char) : List Char :=
  (l.reverse.dropWhile (fun c => c = '/')).reverse

/-- POSIX `os.path.split`: the tail is everything after the last slash, the
head is everything before it with trailing slashes stripped unless the head
is empty or all slashes. -/
def pysplit (p : List Char) : List Char × List Char :=
  let tail := (p.reverse.takeWhile (fun c => c ≠ '/')).reverse
  let head0 := p.take (p.length - tail.length)
  let head := if head0 ≠ [] ∧ head0.any (fun c => c ≠ '/') then rstripSlash head0 else head0
  (head, tail)

/-- POSIX `os.path.join` restricted to two components, as used by the source:
an absolute second component replaces the first; otherwise the parts are
joined with a single slash unless the first is empty or already ends in one. -/
def pyJoin (a b : List Char) : List Char :=
  if b.head? = some '/' then b
  else if a = [] then b
  else if a.getLast? = some '/' then a ++ b
  else a ++ '/' :: b

/-- `Data_filename.get_filename` (`get_files.py:78-80`): the tail of `os.path.split`. -/
def get_filename (path : List Char) : List Char := (pysplit path).2

/-- `Data_filename.get_directory` (`get_files.py:74-76`): the head of `os.path.split`. -/
def get_directory (path : List Char) : List Char := (pysplit path).1

/-- Python `s.replace(old, new)` for a non-empty `old`: left-to-right,
non-overlapping replacement of every occurrence.  (For `old = []` Python
inserts `new` at every boundary; the source only ever replaces non-empty
sample-id tokens, and this embedding leaves the string unchanged there.) -/
def pyReplace (old new : List Char) (s : List Char) : List Char :=
  if h : old ≠ [] ∧ old.isPrefixOf s then
    new ++ pyReplace old new (s.drop old.length)
  else
    match s with
    | [] => []
    | c :: cs => c :: pyReplace old new cs
termination_by s.length
decreasing_by
  · have hpre : old <+: s := by
      simpa using List.isPrefixOf_iff_prefix.mp h.2
    have hlen : old.length ≤ s.length := hpre.length_le
    have hold : 0 < old.length := List.length_pos.mpr h.1
    have hs : 0 < s.length := lt_of_lt_of_le hold hlen
    simp only [List.length_drop]
    omega
  · simp only [List.length_cons]
    omega

deriving instance DecidableEq for Except

/-! ### Filename model (`get_files.py`) -/

/-- `get_files.py:16-24`: suffix and directory-name constants. -/
def BAM_SUFFIX : List Char := "merge.dedup.realign.recal.bam".toList

/-- `get_files.py:17`. -/
def BAI_SUFFIX : List Char := "merge.dedup.realign.recal.bai".toList

/-- `get_files.py:18`. -/
def FASTQ_SUFFIX : List Char := "fastq.gz".toList

/-- `get_files.py:20` (the source notes the unfiltered-VCF assumption). -/
def VCF_SUFFIX : List Char := "merge.dedup.realign.recal.vcf".toList

/-- `anon.py:35`; `metadata.py` imports it from the absent `constants` module. -/
def BATCHES_DIR_NAME : List Char := "batches".toList

/-- `get_files.py:21`. -/
def FASTQ_DIR_NAME : List Char := "data".toList

/-- `get_files.py:22`. -/
def ANALYSIS_DIR_NAME : List Char := "analysis".toList

/-- `get_files.py:23`. -/
def ALIGN_DIR_NAME : List Char := "align".toList

/-- `get_files.py:24`. -/
def VCF_DIR_NAME : List Char := "variants".toList

/-- `get_files.py:63-64`: the recoverable "not this format" condition. -/
inductive FileTypeException
  | mk
deriving DecidableEq

/-- `Data_filename.__init__` (`get_files.py:67-72`): keep the path when it ends
in the expected suffix, otherwise raise `FileTypeException`. -/
def Data_filename.init (sfx path : List Char) : Except FileTypeException (List Char) :=
  if sfx.isSuffixOf path then Except.ok path else Except.error FileTypeException.mk

/-- `Data_filename.split_sample_id` (`get_files.py:91-99`); fields are
`filename.split "."`.  The `else` branch models the fatal error path (which in
the source would itself crash on the undefined name `BAD_FILENAME`). -/
def Data_filename.split_sample_id (path : List Char) : Option (List Char × List Char) :=
  let filename := get_filename path
  let fields := splitOnChar '.' filename
  match fields with
  | f :: _ => some (f, filename.drop f.length)
  | [] => none

/-- `Data_filename.get_sample_id` (`get_files.py:82-84`). -/
def Data_filename.get_sample_id (path : List Char) : Option (List Char) :=
  (Data_filename.split_sample_id path).map (fun p => p.1)

/-- `Data_filename.replace_sample_id` (`get_files.py:101-106`): the new
`absolute_path` after substituting the leading sample-id field. -/
def Data_filename.replace_sample_id (path new_id : List Char) : Option (List Char) :=
  match Data_filename.split_sample_id path with
  | none => none
  | some (_, rest) => some (pyJoin (get_directory path) (new_id ++ rest))

/-- `FASTQ_filename.split_sample_id` (`get_files.py:125-137`); fields are
`filename.split "_"`, otherwise identical to the `Data_filename` version. -/
def FASTQ_filename.split_sample_id (path : List Char) : Option (List Char × List Char) :=
  let filename := get_filename path
  let fields := splitOnChar '_' filename
  match fields with
  | f :: _ => some (f, filename.drop f.length)
  | [] => none

/-- `FASTQ_filename.get_sample_id` (`get_files.py:139-142`): `fields[0]`
directly, with no length guard. -/
def FASTQ_filename.get_sample_id (path : List Char) : List Char :=
  (splitOnChar '_' (get_filename path)).headI

/-- `FASTQ_filename.replace_sample_id` (`get_files.py:144-150`). -/
def FASTQ_filename.replace_sample_id (path new_id : List Char) : List Char :=
  let filename := get_filename path
  let fields := splitOnChar '_' filename
  pyJoin (get_directory path) (new_id ++ filename.drop fields.headI.length)

/-- `FASTQ_filename.replace_field` (`get_files.py:152-177`) with both range
ends explicit (the source defaults `field_index_end` to `field_index_start`).
The two accumulation loops build `fields[0..s-1]` and `fields[s..e]`, each
field followed by `'_'`; `suffix_start` keeps the separator preceding the
first untouched field.  (Python would raise `IndexError` for an out-of-range
index; `List.take` is total, and the claims only use in-range indices.) -/
def FASTQ_filename.replace_field (path new_id : List Char) (s e : Nat) : List Char :=
  let filename := get_filename path
  let fields := splitOnChar '_' filename
  let directory := get_directory path
  let front := sepTerminated '_' (fields.take s)
  let replaced := sepTerminated '_' ((fields.drop s).take (e + 1 - s))
  let suffix_start := (front ++ replaced).length - 1
  pyJoin directory (front ++ new_id ++ filename.drop suffix_start)

/-! ### Sample-metadata index (`metadata.py`) and file locator (`get_files.py`) -/

/-- The slice of `Metadata` (`metadata.py:26-43`) the locator and the consent
hook touch: sample rows, the batch set and the sample-id set. -/
structure Metadata where
  samples : List (List (String × String))
  batches : List (List Char)
  sample_ids : List (List Char)
deriving DecidableEq

/-- `Metadata.filter_consent` (`metadata.py:45-47`): the body is `pass` under
an `XXX fixme` comment.  The second component is the list of lines the call
prints; the method prints nothing and changes nothing. -/
def Metadata.filter_consent (md : Metadata) (consent_file : List Char)
    (allowed_data_types : List String) : Metadata × List String :=
  (md, [])

/-- The per-format data threaded through `get_files_by_type`
(`get_files.py:42-60`): the expected suffix, the field separator used by the
format's `get_fields`, and its `make_batch_dir` static method. -/
structure FileFormat where
  suffix : List Char
  sep : Char
  make_batch_dir : List Char → List Char → List Char

/-- `FASTQ_filename` class data (`get_files.py:109-123`). -/
def FASTQ_format : FileFormat :=
  ⟨FASTQ_SUFFIX, '_',
   fun data_dir batch => pyJoin (pyJoin (pyJoin data_dir BATCHES_DIR_NAME) batch) FASTQ_DIR_NAME⟩

/-- `BAM_filename` class data (`get_files.py:180-186`). -/
def BAM_format : FileFormat :=
  ⟨BAM_SUFFIX, '.',
   fun data_dir batch =>
     pyJoin (pyJoin (pyJoin (pyJoin data_dir BATCHES_DIR_NAME) batch) ANALYSIS_DIR_NAME) ALIGN_DIR_NAME⟩

/-- `BAI_filename` class data (`get_files.py:189-195`). -/
def BAI_format : FileFormat :=
  ⟨BAI_SUFFIX, '.',
   fun data_dir batch =>
     pyJoin (pyJoin (pyJoin (pyJoin data_dir BATCHES_DIR_NAME) batch) ANALYSIS_DIR_NAME) ALIGN_DIR_NAME⟩

/-- `VCF_filename` class data (`get_files.py:198-204`). -/
def VCF_format : FileFormat :=
  ⟨VCF_SUFFIX, '.',
   fun data_dir batch =>
     pyJoin (pyJoin (pyJoin (pyJoin data_dir BATCHES_DIR_NAME) batch) ANALYSIS_DIR_NAME) VCF_DIR_NAME⟩

/-- The handler's `get_sample_id` as invoked by the locator: the leading
separator-delimited field of the filename (total by the shape of
`splitOnChar`; see the `split_sample_id` embeddings above). -/
def format_get_sample_id (fmt : FileFormat) (path : List Char) : List Char :=
  (splitOnChar fmt.sep (get_filename path)).headI

/-- The inner loop of `get_files_by_type` (`get_files.py:48-59`): per listed
filename, try the format constructor; on `FileTypeException` skip the file,
otherwise keep the full path when the extracted sample id is requested. -/
def scan_filenames (fmt : FileFormat) (md : Metadata) (directory : List Char) :
    List (List Char) → List (List Char)
  | [] => []
  | filename :: rest =>
    let full_path := pyJoin directory filename
    match Data_filename.init fmt.suffix full_path with
    | Except.error _ => scan_filenames fmt md directory rest
    | Except.ok _ =>
      if format_get_sample_id fmt full_path ∈ md.sample_ids then
        full_path :: scan_filenames fmt md directory rest
      else
        scan_filenames fmt md directory rest

/-- `get_files_by_type` (`get_files.py:42-60`): per batch, list the format's
batch directory (`listdir` abstracts `os.listdir`) and scan it. -/
def get_files_by_type (listdir : List Char → List (List Char)) (datadir : List Char)
    (md : Metadata) (fmt : FileFormat) : List (List Char) :=
  (md.batches.map (fun batch =>
    let directory := fmt.make_batch_dir datadir batch
    scan_filenames fmt md directory (listdir directory))).flatten

/-! ### Request classifier (`application.py`, `anon.py`) -/

/-- Error labels for the fatal `exit(...)` codes.  `error.py` is not part of
the sources; the labels mirror the distinct codes imported from it and the
numeric constants of `anon.py:42-46`. -/
inductive AnonError
  | invalid_application
  | incompatible_request
  | random_id_iterations
  | bad_filename
deriving DecidableEq

/-- The `Request` named tuple (`application.py:94-97`). -/
structure Request where
  ethics : String
  research_related : String
  filter_results : String
  method_dev : String
  return_results : String
  genes_approved : String
  reconsent_patient : String
deriving DecidableEq

/-- `REQUEST_COMBINATIONS` (`application.py:103-184`): the explicit policy
table, as the association list underlying the Python dict. -/
def REQUEST_COMBINATIONS : List (Request × List String) :=
  [ (⟨"MGHA", "TRUE", "TRUE", "FALSE", "FALSE", "FALSE", "FALSE"⟩, ["Re-identifiable"])
  , (⟨"MGHA", "TRUE", "FALSE", "FALSE", "FALSE", "TRUE", "FALSE"⟩, ["Re-identifiable"])
  , (⟨"MGHA", "TRUE", "FALSE", "FALSE", "FALSE", "FALSE", "FALSE"⟩, [])
  , (⟨"MGHA", "FALSE", "FALSE", "TRUE", "FALSE", "FALSE", "FALSE"⟩, ["Anonymised"])
  , (⟨"MGHA", "FALSE", "FALSE", "FALSE", "FALSE", "FALSE", "FALSE"⟩, [])
  , (⟨"HREC", "FALSE", "FALSE", "FALSE", "FALSE", "FALSE", "FALSE"⟩, ["Anonymised", "Future"])
  , (⟨"HREC", "TRUE", "FALSE", "FALSE", "FALSE", "FALSE", "FALSE"⟩, ["Anonymised", "Future"])
  , (⟨"HREC", "TRUE", "TRUE", "FALSE", "FALSE", "FALSE", "TRUE"⟩, ["Re-identifiable"])
  , (⟨"HREC", "TRUE", "TRUE", "FALSE", "FALSE", "FALSE", "FALSE"⟩, ["Re-identifiable", "Future"])
  , (⟨"HREC", "TRUE", "TRUE", "FALSE", "TRUE", "FALSE", "FALSE"⟩, ["Re-identifiable", "Future", "Return"])
  ]

/-- The dict access `REQUEST_COMBINATIONS[request]`: the value at the key, or
`none` for a `KeyError`. -/
def request_lookup (r : Request) : Option (List String) :=
  (REQUEST_COMBINATIONS.find? (fun p => p.1 = r)).map (fun p => p.2)

/-- `get_data_available` (`anon.py:117-127`): the table lookup, failing closed
with the policy-gap error on a `KeyError`. -/
def get_data_available (r : Request) : Except AnonError (List String) :=
  match request_lookup r with
  | some cats => Except.ok cats
  | none => Except.error AnonError.invalid_application

/-- `Application.allowed_data_types` (`application.py:57-73`): the table
lookup (policy gap on a miss), then the identifiability compatibility check. -/
def allowed_data_types (r : Request) (identifiability : String) :
    Except AnonError (List String) :=
  match request_lookup r with
  | none => Except.error AnonError.invalid_application
  | some allowed_combinations =>
    if identifiability ∈ allowed_combinations then Except.ok allowed_combinations
    else Except.error AnonError.incompatible_request

/-! ### Variant-format rewriter (`vcf_edit.py`) -/

/-- Python `line.startswith("#")`. -/
def startswithHash (l : List Char) : Bool :=
  match l with
  | '#' :: _ => true
  | _ => false

/-- `vcf_edit` (`vcf_edit.py:32-44`) on the input's lines: header lines
(starting with `'#'`) get every occurrence of `old` replaced, all other lines
are written unchanged, one output line per input line. -/
def vcf_edit (old new : List Char) : List (List Char) → List (List Char)
  | [] => []
  | line :: rest =>
    let new_line := if startswithHash line then pyReplace old new line else line
    new_line :: vcf_edit old new rest

/-! ### Alignment-format rewriter (`src/anonymise/bam_edit.py`) -/

/-- One `@RG` header entry as `pysam` presents it: optional `ID` and `SM`
fields plus the remaining tag/value pairs. -/
structure ReadGroup where
  ID : Option (List Char)
  SM : Option (List Char)
  other : List (List Char × List Char)
deriving DecidableEq

/-- A BAM header: the optional `RG` entry list and the remaining header text,
passed through opaquely. -/
structure BamHeader where
  RG : Option (List ReadGroup)
  other : List Char
deriving DecidableEq

/-- One alignment record: query name, optional `RG` tag, and the fields the
rewriter never touches. -/
structure BamRecord where
  query_name : List Char
  RG_tag : Option (List Char)
  seq : List Char
  qual : List Char
  pos : Nat
  other_tags : List (List Char × List Char)
deriving DecidableEq

/-- A parsed BAM file. -/
structure BamFile where
  header : BamHeader
  records : List BamRecord
deriving DecidableEq

/-- `bam_edit.py:42-47`: substitute inside the `ID` and `SM` fields of one
read group. -/
def edit_read_group (old new : List Char) (rg : ReadGroup) : ReadGroup :=
  let rg1 := match rg.ID with
    | some i => { rg with ID := some (pyReplace old new i) }
    | none => rg
  match rg1.SM with
  | some s => { rg1 with SM := some (pyReplace old new s) }
  | none => rg1

/-- `bam_edit.py:40-47`: the header loop over `input_header['RG']`. -/
def edit_header (old new : List Char) (h : BamHeader) : BamHeader :=
  match h.RG with
  | some rgs => { h with RG := some (rgs.map (edit_read_group old new)) }
  | none => h

/-- The failure `bam_edit` (`src/anonymise/bam_edit.py:35-55`) actually hits:
after mutating the header, line 48 opens `pysam.AlignmentFile(output_file, ...)`,
but the function's parameter is named `output_filename` and no `output_file`
exists in any scope, so every call raises `NameError` there, before any
record is processed or any output is written. -/
inductive BamEditError
  | undefined_name_output_file
deriving DecidableEq

/-- `bam_edit` (`src/anonymise/bam_edit.py:35-55`): the header substitution of
lines 40-47 runs, then the undefined name `output_file` on line 48 aborts the
call; no output file is produced. -/
def bam_edit (old new : List Char) (input : BamFile) : Except BamEditError BamFile :=
  let _input_header := edit_header old new input.header
  Except.error BamEditError.undefined_name_output_file

/-! ### Surrogate-id allocator (`random_id.py`) -/

/-- `random_id.py:12`. -/
def MAX_RANDOM_ID_ITERATIONS : Nat := 1000000

/-- `random_id.py:16`: the floor of the random range. -/
def MIN_RANDOM_ID : Nat := 1000

/-- The retry loop of `make_random_ids` (`random_id.py:46-53`).  `random.randint`
is abstracted as a stream of draws `stream : Nat → Nat` consumed at position
`pos`; `fuel` runs the source's counter downward,
`fuel = MAX_RANDOM_ID_ITERATIONS - iter_count`, so `fuel = 0` with a colliding
candidate is exactly `iter_count >= MAX_RANDOM_ID_ITERATIONS`, the fatal
`exit(ERROR_RANDOM_ID_ITERATIONS)` (modelled as `none`). -/
def fresh_id_loop (stream : Nat → Nat) (used : Finset Nat) :
    Nat → Nat → Nat → Option (Nat × Nat)
  | fuel, new_id, pos =>
    if new_id ∈ used then
      match fuel with
      | 0 => none
      | f + 1 => fresh_id_loop stream used f (stream pos) (pos + 1)
    else some (new_id, pos)

/-- The per-sample loop of `make_random_ids` (`random_id.py:44-58`): for each
original id draw a fresh surrogate (`make_one_random_id()` is `stream pos`),
record it in `result`, `used_ids` and `new_ids`. -/
def make_random_ids_loop (stream : Nat → Nat) :
    List String → Finset Nat → Nat → List (String × Nat) → List Nat →
    Option (List (String × Nat) × List Nat)
  | [], _, _, result, new_ids => some (result, new_ids)
  | old_sample :: rest, used_ids, pos, result, new_ids =>
    match fresh_id_loop stream used_ids MAX_RANDOM_ID_ITERATIONS (stream pos) (pos + 1) with
    | none => none
    | some (new_id, pos₂) =>
      make_random_ids_loop stream rest (insert new_id used_ids) pos₂
        (result ++ [(old_sample, new_id)]) (new_ids ++ [new_id])

/-- `make_random_ids` (`random_id.py:31-64`).  The ledger database is modelled
by the set of ids its `unique_ids` table holds: the `SELECT` populating
`used_ids` reads it, and the final `INSERT`/`commit` extends it with the new
ids.  The result dict is the association list in insertion order (for the
distinct keys the claims quantify over, Python dict insertion agrees).
`none` models the fatal iteration-exhaustion exit with nothing committed. -/
def make_random_ids (ledger : Finset Nat) (sample_ids : List String)
    (stream : Nat → Nat) : Option (List (String × Nat) × Finset Nat) :=
  match make_random_ids_loop stream sample_ids ledger 0 [] [] with
  | none => none
  | some (result, new_ids) => some (result, ledger ∪ new_ids.toFinset)

/-! ### Helper lemmas about the string model -/

theorem takeWhile_append_all {α : Type} (p : α → Bool) (l₁ l₂ : List α)
    (h : ∀ x ∈ l₁, p x = true) :
    (l₁ ++ l₂).takeWhile p = l₁ ++ l₂.takeWhile p := by
  induction l₁ with
  | nil => simp
  | cons x xs ih =>
    have hx : p x = true := h x (by simp)
    simp only [List.cons_append, List.takeWhile_cons, hx, if_true]
    rw [ih (fun y hy => h y (by simp [hy]))]

theorem takeWhile_all {α : Type} (p : α → Bool) (l : List α)
    (h : ∀ x ∈ l, p x = true) : l.takeWhile p = l := by
  have := takeWhile_append_all p l [] h
  simpa using this

theorem splitOnChar_spec (sep : Char) (l : List Char) :
    ∃ f rest, splitOnChar sep l = f :: rest ∧
      f ++ l.drop f.length = l ∧
      (∀ c ∈ f, c ≠ sep) ∧
      (l.drop f.length = [] ∨ ∃ t, l.drop f.length = sep :: t) := by
  induction l with
  | nil => exact ⟨[], [], rfl, rfl, by simp, Or.inl rfl⟩
  | cons c cs ih =>
    obtain ⟨f, rest, hsplit, happ, hmem, hrest⟩ := ih
    by_cases hc : c = sep
    · refine ⟨[], splitOnChar sep cs, ?_, by simp, by simp, Or.inr ⟨cs, by simp [hc]⟩⟩
      simp [splitOnChar, hsplit, hc]
    · refine ⟨c :: f, rest, ?_, ?_, ?_, ?_⟩
      · simp [splitOnChar, hsplit, hc]
      · simpa using happ
      · intro x hx
        rcases List.mem_cons.mp hx with hx | hx
        · exact hx ▸ hc
        · exact hmem x hx
      · simpa using hrest

theorem splitOnChar_ne_nil (sep : Char) (l : List Char) : splitOnChar sep l ≠ [] := by
  obtain ⟨f, rest, hsplit, -⟩ := splitOnChar_spec sep l
  simp [hsplit]

theorem splitOnChar_concat (sep : Char) (a b : List Char)
    (ha : ∀ c ∈ a, c ≠ sep) (hb : b = [] ∨ ∃ t, b = sep :: t) :
    ∃ rest, splitOnChar sep (a ++ b) = a :: rest := by
  induction a with
  | nil =>
    rcases hb with hb | ⟨t, hb⟩
    · exact ⟨[], by simp [hb, splitOnChar]⟩
    · refine ⟨splitOnChar sep t, ?_⟩
      obtain ⟨f, rest, hsplit, -⟩ := splitOnChar_spec sep t
      simp [hb, splitOnChar, hsplit]
  | cons c a' ih =>
    obtain ⟨rest, hrest⟩ := ih (fun x hx => ha x (by simp [hx]))
    have hc : c ≠ sep := ha c (by simp)
    exact ⟨rest, by simp [splitOnChar, hrest, hc]⟩

theorem get_filename_eq (p : List Char) :
    get_filename p = (p.reverse.takeWhile (fun c => decide (c ≠ '/'))).reverse := rfl

theorem get_filename_no_slash (p : List Char) : ∀ c ∈ get_filename p, c ≠ '/' := by
  intro c hc
  rw [get_filename_eq] at hc
  have hmem : c ∈ p.reverse.takeWhile (fun c => decide (c ≠ '/')) := by
    simpa using hc
  have := List.mem_takeWhile_imp hmem
  simpa using this

theorem get_filename_of_pyJoin (d t : List Char) (ht : ∀ c ∈ t, c ≠ '/') :
    get_filename (pyJoin d t) = t := by
  have habs : t.head? ≠ some '/' := by
    cases t with
    | nil => simp
    | cons c cs =>
      have := ht c (by simp)
      simpa using this
  have htake : ∀ l₂ : List Char, (t.reverse ++ l₂).takeWhile (fun c => decide (c ≠ '/')) =
      t.reverse ++ l₂.takeWhile (fun c => decide (c ≠ '/')) := by
    intro l₂
    refine takeWhile_append_all _ _ _ ?_
    intro x hx
    simpa using ht x (by simpa using hx)
  have hself : t.reverse.takeWhile (fun c => decide (c ≠ '/')) = t.reverse := by
    have := htake []
    simpa using this
  unfold pyJoin
  rw [if_neg habs]
  by_cases hd : d = []
  · rw [if_pos hd, get_filename_eq, hself, List.reverse_reverse]
  · rw [if_neg hd]
    by_cases hlast : d.getLast? = some '/'
    · rw [if_pos hlast]
      obtain ⟨dr, hdr⟩ : ∃ dr, d.reverse = '/' :: dr := by
        have hrev : d.reverse.head? = some '/' := by
          simpa [List.head?_reverse] using hlast
        cases hdrev : d.reverse with
        | nil => simp [hdrev] at hrev
        | cons x xs =>
          have : x = '/' := by simpa [hdrev] using hrev
          exact ⟨xs, by simp [this]⟩
      rw [get_filename_eq, List.reverse_append, hdr, htake]
      simp
    · rw [if_neg hlast]
      have hrev : (d ++ '/' :: t).reverse = t.reverse ++ '/' :: d.reverse := by
        simp [List.reverse_append]
      rw [get_filename_eq, hrev, htake]
      simp

theorem joinSep_cons (sep : Char) (f : List Char) (l : List (List Char)) (hl : l ≠ []) :
    joinSep sep (f :: l) = f ++ sep :: joinSep sep l := by
  cases l with
  | nil => exact absurd rfl hl
  | cons x xs => rfl

theorem sepTerminated_append (sep : Char) (X Y : List (List Char)) :
    sepTerminated sep (X ++ Y) = sepTerminated sep X ++ sepTerminated sep Y := by
  simp [sepTerminated]

theorem joinSep_append_of_ne_nil (sep : Char) (X C : List (List Char)) (hC : C ≠ []) :
    joinSep sep (X ++ C) = sepTerminated sep X ++ joinSep sep C := by
  induction X with
  | nil => simp [sepTerminated]
  | cons x X' ih =>
    have hne : X' ++ C ≠ [] := by
      simp only [ne_eq, List.append_eq_nil]
      rintro ⟨-, h⟩
      exact hC h
    rw [List.cons_append, joinSep_cons sep x (X' ++ C) hne, ih]
    simp [sepTerminated]

theorem joinSep_splitOnChar (sep : Char) (l : List Char) :
    joinSep sep (splitOnChar sep l) = l := by
  induction l with
  | nil => rfl
  | cons c cs ih =>
    obtain ⟨f, rest, hsplit, -⟩ := splitOnChar_spec sep cs
    by_cases hc : c = sep
    · rw [show splitOnChar sep (c :: cs) = [] :: f :: rest by simp [splitOnChar, hsplit, hc]]
      rw [joinSep_cons sep [] (f :: rest) (by simp)]
      rw [← hsplit, ih, hc]
      rfl
    · rw [show splitOnChar sep (c :: cs) = (c :: f) :: rest by simp [splitOnChar, hsplit, hc]]
      cases rest with
      | nil =>
        have : joinSep sep [f] = cs := by rw [← hsplit]; exact ih
        simp only [joinSep] at this ⊢
        simp [this]
      | cons r rs =>
        rw [joinSep_cons sep (c :: f) (r :: rs) (by simp)]
        have : joinSep sep (f :: r :: rs) = cs := by rw [← hsplit]; exact ih
        rw [joinSep_cons sep f (r :: rs) (by simp)] at this
        simp [← this]

theorem vcf_edit_eq_map (old new : List Char) (lines : List (List Char)) :
    vcf_edit old new lines =
      lines.map (fun l => if startswithHash l then pyReplace old new l else l) := by
  induction lines with
  | nil => rfl
  | cons line rest ih => simp [vcf_edit, ih]

theorem scan_filenames_eq_filter (fmt : FileFormat) (md : Metadata) (directory : List Char)
    (fns : List (List Char)) :
    scan_filenames fmt md directory fns =
      (fns.filter (fun fn =>
        fmt.suffix.isSuffixOf (pyJoin directory fn) &&
        decide (format_get_sample_id fmt (pyJoin directory fn) ∈ md.sample_ids))).map
        (fun fn => pyJoin directory fn) := by
  induction fns with
  | nil => rfl
  | cons fn rest ih =>
    by_cases hsuf : fmt.suffix.isSuffixOf (pyJoin directory fn)
    · by_cases hmem : format_get_sample_id fmt (pyJoin directory fn) ∈ md.sample_ids
      · simp [scan_filenames, Data_filename.init, hsuf, hmem, List.filter_cons, ih]
      · simp [scan_filenames, Data_filename.init, hsuf, hmem, List.filter_cons, ih]
    · simp [scan_filenames, Data_filename.init, hsuf, List.filter_cons, ih]

theorem fresh_id_loop_not_mem (stream : Nat → Nat) (used : Finset Nat) :
    ∀ (fuel new_id pos : Nat) (out : Nat × Nat),
      fresh_id_loop stream used fuel new_id pos = some out → out.1 ∉ used := by
  intro fuel
  induction fuel with
  | zero =>
    intro new_id pos out h
    by_cases hmem : new_id ∈ used
    · simp [fresh_id_loop, hmem] at h
    · simp [fresh_id_loop, hmem] at h
      rw [← h]
      exact hmem
  | succ f ih =>
    intro new_id pos out h
    by_cases hmem : new_id ∈ used
    · rw [show fresh_id_loop stream used (f + 1) new_id pos =
          fresh_id_loop stream used f (stream pos) (pos + 1) by
        simp [fresh_id_loop, hmem]] at h
      exact ih (stream pos) (pos + 1) out h
    · simp [fresh_id_loop, hmem] at h
      rw [← h]
      exact hmem

theorem fresh_id_loop_exhaust (stream : Nat → Nat) (used : Finset Nat) :
    ∀ (fuel new_id pos : Nat), new_id ∈ used →
      (∀ j, j < pos + fuel → stream j ∈ used) →
      fresh_id_loop stream used fuel new_id pos = none := by
  intro fuel
  induction fuel with
  | zero =>
    intro new_id pos hmem _
    simp [fresh_id_loop, hmem]
  | succ f ih =>
    intro new_id pos hmem hall
    rw [show fresh_id_loop stream used (f + 1) new_id pos =
        fresh_id_loop stream used f (stream pos) (pos + 1) by
      simp [fresh_id_loop, hmem]]
    refine ih (stream pos) (pos + 1) (hall pos (by omega)) ?_
    intro j hj
    exact hall j (by omega)

theorem make_random_ids_loop_spec (stream : Nat → Nat) :
    ∀ (ids : List String) (used : Finset Nat) (pos : Nat)
      (result : List (String × Nat)) (new_ids : List Nat)
      (result₂ : List (String × Nat)) (new_ids₂ : List Nat),
      make_random_ids_loop stream ids used pos result new_ids = some (result₂, new_ids₂) →
      ∃ delta : List (String × Nat),
        result₂ = result ++ delta ∧
        new_ids₂ = new_ids ++ delta.map Prod.snd ∧
        delta.map Prod.fst = ids ∧
        (delta.map Prod.snd).Nodup ∧
        ∀ v ∈ delta.map Prod.snd, v ∉ used := by
  intro ids
  induction ids with
  | nil =>
    intro used pos result new_ids result₂ new_ids₂ h
    simp only [make_random_ids_loop, Option.some.injEq, Prod.mk.injEq] at h
    exact ⟨[], by simp [← h.1, ← h.2]⟩
  | cons old_sample rest ih =>
    intro used pos result new_ids result₂ new_ids₂ h
    simp only [make_random_ids_loop] at h
    cases hdraw : fresh_id_loop stream used MAX_RANDOM_ID_ITERATIONS (stream pos) (pos + 1) with
    | none => rw [hdraw] at h; simp at h
    | some p =>
      obtain ⟨new_id, pos₂⟩ := p
      rw [hdraw] at h
      have hfresh : new_id ∉ used :=
        fresh_id_loop_not_mem stream used _ _ _ _ hdraw
      obtain ⟨delta, hres, hnew, hfst, hnodup, hnotmem⟩ :=
        ih (insert new_id used) pos₂ (result ++ [(old_sample, new_id)])
          (new_ids ++ [new_id]) result₂ new_ids₂ h
      refine ⟨(old_sample, new_id) :: delta, ?_, ?_, ?_, ?_, ?_⟩
      · simp [hres]
      · simp [hnew]
      · simp [hfst]
      · refine List.nodup_cons.mpr ⟨?_, hnodup⟩
        intro hmem
        exact hnotmem new_id hmem (Finset.mem_insert_self new_id used)
      · intro v hv
        rcases List.mem_cons.mp hv with hv | hv
        · simpa [hv] using hfresh
        · intro hvu
          exact hnotmem v hv (Finset.mem_insert_of_mem hvu)

/-! ### Claim theorems -/

/-- C2: for every request attribute tuple present in the policy table, the
classification returns exactly the table's category set (in particular the
MGHA tuple with only `research_related` and `filter_results` set yields
exactly `["Re-identifiable"]`, and the HREC tuple with `filter_results` and
`return_results` set yields exactly
`["Re-identifiable", "Future", "Return"]`); for every tuple absent from the
table, both `get_data_available` and `Application.allowed_data_types` fail
with the fatal policy-gap error `invalid_application`, never defaulting to a
permissive or empty result. -/
theorem C2_request_classifier :
    (∀ p ∈ REQUEST_COMBINATIONS, get_data_available p.1 = Except.ok p.2) ∧
    get_data_available ⟨"MGHA", "TRUE", "TRUE", "FALSE", "FALSE", "FALSE", "FALSE"⟩ =
      Except.ok ["Re-identifiable"] ∧
    get_data_available ⟨"HREC", "TRUE", "TRUE", "FALSE", "TRUE", "FALSE", "FALSE"⟩ =
      Except.ok ["Re-identifiable", "Future", "Return"] ∧
    (∀ r : Request, r ∉ REQUEST_COMBINATIONS.map Prod.fst →
      get_data_available r = Except.error AnonError.invalid_application ∧
      ∀ ident : String,
        allowed_data_types r ident = Except.error AnonError.invalid_application) := by
  refine ⟨by decide, by decide, by decide, ?_⟩
  intro r hr
  have hf : REQUEST_COMBINATIONS.find? (fun p => p.1 = r) = none := by
    rw [List.find?_eq_none]
    intro p hp
    simp only [decide_eq_true_eq]
    intro hpr
    exact hr (List.mem_map.mpr ⟨p, hp, hpr⟩)
  constructor
  · simp [get_data_available, request_lookup, hf]
  · intro ident
    simp [allowed_data_types, request_lookup, hf]

/-- Witness for C2 at a concrete absent tuple (an MGHA request with both
`filter_results` and `method_dev` set has no table entry). -/
theorem C2_request_classifier_witness :
    get_data_available ⟨"MGHA", "TRUE", "TRUE", "TRUE", "FALSE", "FALSE", "FALSE"⟩ =
      Except.error AnonError.invalid_application ∧
    allowed_data_types ⟨"MGHA", "TRUE", "TRUE", "TRUE", "FALSE", "FALSE", "FALSE"⟩
      "Anonymised" = Except.error AnonError.invalid_application := by
  have h := C2_request_classifier.2.2.2
    ⟨"MGHA", "TRUE", "TRUE", "TRUE", "FALSE", "FALSE", "FALSE"⟩ (by decide)
  exact ⟨h.1, h.2 "Anonymised"⟩

/-- C4: `vcf_edit` writes exactly one output line per input line in the
original order; a line beginning with `'#'` is written with every occurrence
of the old id replaced (Python `str.replace` semantics, embedded as
`pyReplace`), and every other line is written byte-identical to the input,
even if it contains the old id. -/
theorem C4_vcf_edit (old new : List Char) (lines : List (List Char)) (hold : old ≠ []) :
    (vcf_edit old new lines).length = lines.length ∧
    ∀ i (hi : i < lines.length),
      (vcf_edit old new lines)[i]? =
        some (if startswithHash lines[i] then pyReplace old new lines[i] else lines[i]) := by
  rw [vcf_edit_eq_map]
  refine ⟨by simp, ?_⟩
  intro i hi
  rw [List.getElem?_map, List.getElem?_eq_getElem hi]
  rfl

/-- Witness for C4: a two-line input whose data line contains the old id as a
substring; the header line is rewritten, the data line is untouched. -/
theorem C4_vcf_edit_witness :
    (vcf_edit "S1".toList "4821".toList
      ["##source=S1".toList, "chr1\tS1\t100".toList]).length = 2 ∧
    (vcf_edit "S1".toList "4821".toList
      ["##source=S1".toList, "chr1\tS1\t100".toList])[1]? =
      some "chr1\tS1\t100".toList := by
  have h := C4_vcf_edit "S1".toList "4821".toList
    ["##source=S1".toList, "chr1\tS1\t100".toList] (by decide)
  refine ⟨h.1, ?_⟩
  have h1 := h.2 1 (by decide)
  simpa using h1

/-- C5 (code bug): every call of `bam_edit` in `src/anonymise/bam_edit.py`
aborts with a `NameError` — line 48 opens the output as
`pysam.AlignmentFile(output_file, ...)` but the parameter is named
`output_filename` and no `output_file` is in scope — so the function never
writes the rewritten alignment file the claim (and the module docstring)
describe. -/
theorem C5_bam_edit_always_fails (old new : List Char) (input : BamFile) :
    bam_edit old new input = Except.error BamEditError.undefined_name_output_file := rfl

/-- C9 amended: `Metadata.filter_consent` is a silent no-op stub: it leaves
the metadata index (samples, batches, sample_ids) unchanged and prints
nothing — in particular it does NOT emit the visible runtime warning the
claim asserts (the gap is marked only by an `XXX fixme` source comment). -/
theorem C9_filter_consent_noop (md : Metadata) (consent_file : List Char)
    (adt : List String) :
    Metadata.filter_consent md consent_file adt = (md, []) := rfl

/-- Counterexample for C9 as stated: at a concrete call the list of printed
warning lines is empty, refuting "it emits a visible warning that consent
filtering is unimplemented". -/
theorem C9_filter_consent_counterexample :
    (Metadata.filter_consent ⟨[], [], []⟩ [] []).2 = ([] : List String) := rfl

/-- C10: for every path, splitting on the separator always yields a non-empty
field list, so both `split_sample_id` implementations totally return the
leading field together with the rest of the filename, and the fatal
"Cannot find sample ID" branch (which would itself crash on the undefined
name `BAD_FILENAME`) is unreachable. -/
theorem C10_split_sample_id_total (path : List Char) :
    (∀ (sep : Char) (l : List Char), splitOnChar sep l ≠ []) ∧
    (∃ f rest, splitOnChar '.' (get_filename path) = f :: rest ∧
      Data_filename.split_sample_id path = some (f, (get_filename path).drop f.length) ∧
      f ++ (get_filename path).drop f.length = get_filename path) ∧
    (∃ f rest, splitOnChar '_' (get_filename path) = f :: rest ∧
      FASTQ_filename.split_sample_id path = some (f, (get_filename path).drop f.length) ∧
      f ++ (get_filename path).drop f.length = get_filename path) := by
  refine ⟨splitOnChar_ne_nil, ?_, ?_⟩
  · obtain ⟨f, rest, hsplit, happ, -, -⟩ := splitOnChar_spec '.' (get_filename path)
    exact ⟨f, rest, hsplit, by simp [Data_filename.split_sample_id, hsplit], happ⟩
  · obtain ⟨f, rest, hsplit, happ, -, -⟩ := splitOnChar_spec '_' (get_filename path)
    exact ⟨f, rest, hsplit, by simp [FASTQ_filename.split_sample_id, hsplit], happ⟩

/-- C8: a candidate path that does not end in the expected format suffix makes
the filename-handler constructor raise the recoverable `FileTypeException`
(rather than succeed or terminate the program), and the file locator is a
total function equal to a pure filter: non-matching files are silently
excluded while the scan continues over the remaining files, with no error
channel at all. -/
theorem C8_format_mismatch_recovered :
    (∀ sfx path : List Char, sfx.isSuffixOf path = false →
      Data_filename.init sfx path = Except.error FileTypeException.mk) ∧
    (∀ (listdir : List Char → List (List Char)) (datadir : List Char)
       (md : Metadata) (fmt : FileFormat),
      get_files_by_type listdir datadir md fmt =
        (md.batches.map (fun batch =>
          ((listdir (fmt.make_batch_dir datadir batch)).filter (fun fn =>
            fmt.suffix.isSuffixOf (pyJoin (fmt.make_batch_dir datadir batch) fn) &&
            decide (format_get_sample_id fmt (pyJoin (fmt.make_batch_dir datadir batch) fn)
              ∈ md.sample_ids))).map
            (fun fn => pyJoin (fmt.make_batch_dir datadir batch) fn))).flatten) := by
  constructor
  · intro sfx path h
    simp [Data_filename.init, h]
  · intro listdir datadir md fmt
    unfold get_files_by_type
    refine congrArg List.flatten ?_
    refine List.map_congr_left ?_
    intro batch _
    exact scan_filenames_eq_filter fmt md (fmt.make_batch_dir datadir batch)
      (listdir (fmt.make_batch_dir datadir batch))

/-- Witness for C8 at a concrete non-matching path: a text file offered to the
FASTQ format is rejected with the recoverable exception. -/
theorem C8_format_mismatch_witness :
    Data_filename.init FASTQ_SUFFIX "/data/readme.txt".toList =
      Except.error FileTypeException.mk :=
  C8_format_mismatch_recovered.1 FASTQ_SUFFIX "/data/readme.txt".toList (by decide)

/-- C7: if every candidate the random stream can produce within the retry
bound collides with an id already in the ledger, the allocator gives up after
`MAX_RANDOM_ID_ITERATIONS = 1000000` retries (only draws `0..1000000` are
ever consulted) and fails fatally with the allocation-exhaustion exit,
returning no partial mapping. -/
theorem C7_retry_bound (ledger : Finset Nat) (stream : Nat → Nat)
    (s : String) (rest : List String)
    (h : ∀ i ≤ MAX_RANDOM_ID_ITERATIONS, stream i ∈ ledger) :
    make_random_ids ledger (s :: rest) stream = none := by
  have hdraw : fresh_id_loop stream ledger MAX_RANDOM_ID_ITERATIONS (stream 0) 1 = none := by
    refine fresh_id_loop_exhaust stream ledger MAX_RANDOM_ID_ITERATIONS (stream 0) 1
      (h 0 (by omega)) ?_
    intro j hj
    exact h j (by omega)
  simp [make_random_ids, make_random_ids_loop, hdraw]

/-- Witness for C7: a constant stream stuck on an id the ledger already
holds makes the allocator fail fatally. -/
theorem C7_retry_bound_witness :
    make_random_ids {5} ["a"] (fun _ => 5) = none :=
  C7_retry_bound {5} (fun _ => 5) "a" [] (fun i _ => by simp)

/-- C1: when `make_random_ids` returns, the mapping's keys are exactly the
given sample ids, the surrogate values are pairwise distinct and disjoint
from every id already in the ledger, the committed ledger is exactly the old
ledger plus the new surrogates — `M + N` ids in total — and a second
sequential call on the committed ledger (with a disjoint sample-id set) can
never produce a surrogate overlapping the first call's. -/
theorem C1_make_random_ids_allocator (ledger : Finset Nat) (sample_ids : List String)
    (stream : Nat → Nat) (result : List (String × Nat)) (ledger₂ : Finset Nat)
    (hnodup : sample_ids.Nodup)
    (hrun : make_random_ids ledger sample_ids stream = some (result, ledger₂)) :
    result.map Prod.fst = sample_ids ∧
    (result.map Prod.snd).Nodup ∧
    (∀ v ∈ result.map Prod.snd, v ∉ ledger) ∧
    ledger₂ = ledger ∪ (result.map Prod.snd).toFinset ∧
    ledger₂.card = ledger.card + sample_ids.length ∧
    (∀ (sample_ids₂ : List String) (stream₂ : Nat → Nat)
       (result₂ : List (String × Nat)) (ledger₃ : Finset Nat),
      (∀ x ∈ sample_ids₂, x ∉ sample_ids) →
      make_random_ids ledger₂ sample_ids₂ stream₂ = some (result₂, ledger₃) →
      ∀ v ∈ result₂.map Prod.snd, v ∉ result.map Prod.snd) := by
  have main : ∀ (L : Finset Nat) (ids : List String) (σ : Nat → Nat)
      (res : List (String × Nat)) (L₂ : Finset Nat),
      make_random_ids L ids σ = some (res, L₂) →
      res.map Prod.fst = ids ∧ (res.map Prod.snd).Nodup ∧
      (∀ v ∈ res.map Prod.snd, v ∉ L) ∧ L₂ = L ∪ (res.map Prod.snd).toFinset := by
    intro L ids σ res L₂ hr
    unfold make_random_ids at hr
    cases hloop : make_random_ids_loop σ ids L 0 [] [] with
    | none => rw [hloop] at hr; simp at hr
    | some p =>
      obtain ⟨res0, nids⟩ := p
      rw [hloop] at hr
      simp only [Option.some.injEq, Prod.mk.injEq] at hr
      obtain ⟨hres, hled⟩ := hr
      obtain ⟨delta, hdres, hdnew, hdfst, hdnodup, hdnot⟩ :=
        make_random_ids_loop_spec σ ids L 0 [] [] res0 nids hloop
      simp only [List.nil_append] at hdres hdnew
      subst hdres hdnew hres
      exact ⟨hdfst, hdnodup, hdnot, hled.symm⟩
  obtain ⟨hkeys, hnodup₂, hdisj, hled⟩ := main ledger sample_ids stream result ledger₂ hrun
  have hlen : (result.map Prod.snd).length = sample_ids.length := by
    rw [← hkeys]
    simp
  have hcard : ledger₂.card = ledger.card + sample_ids.length := by
    rw [hled, Finset.card_union_of_disjoint, List.toFinset_card_of_nodup hnodup₂, hlen]
    rw [Finset.disjoint_right]
    intro a ha
    exact hdisj a (List.mem_toFinset.mp ha)
  refine ⟨hkeys, hnodup₂, hdisj, hled, hcard, ?_⟩
  intro ids₂ σ₂ res₂ L₃ _hdisj2 hrun₂ v hv₂ hv₁
  obtain ⟨-, -, hdisj₂, -⟩ := main ledger₂ ids₂ σ₂ res₂ L₃ hrun₂
  exact hdisj₂ v hv₂ (hled ▸ Finset.mem_union_right ledger (List.mem_toFinset.mpr hv₁))

/-- Witness for C1: a concrete run over an empty ledger with two sample ids
and the stream 1000, 1001, ... -/
theorem C1_make_random_ids_witness :
    ([("a", 1000), ("b", 1001)] : List (String × Nat)).map Prod.snd = [1000, 1001] ∧
    ([1000, 1001] : List Nat).Nodup ∧
    ({1000, 1001} : Finset Nat).card = (∅ : Finset Nat).card + 2 := by
  have h := C1_make_random_ids_allocator ∅ ["a", "b"] (fun n => 1000 + n)
    [("a", 1000), ("b", 1001)] {1000, 1001} (by decide) (by decide)
  refine ⟨rfl, ?_, ?_⟩
  · simpa using h.2.1
  · simpa using h.2.2.2.2.1

theorem replace_core (sep : Char) (path new_id : List Char)
    (hsep : ∀ c ∈ new_id, c ≠ sep) (hslash : ∀ c ∈ new_id, c ≠ '/') :
    ∃ f rest, splitOnChar sep (get_filename path) = f :: rest ∧
      get_filename (pyJoin (get_directory path)
          (new_id ++ (get_filename path).drop f.length)) =
        new_id ++ (get_filename path).drop f.length ∧
      ∃ rest₂, splitOnChar sep
          (new_id ++ (get_filename path).drop f.length) = new_id :: rest₂ := by
  obtain ⟨f, rest, hsplit, happ, hmem, hrest⟩ := splitOnChar_spec sep (get_filename path)
  refine ⟨f, rest, hsplit, ?_, ?_⟩
  · refine get_filename_of_pyJoin _ _ ?_
    intro c hc
    rcases List.mem_append.mp hc with hc | hc
    · exact hslash c hc
    · exact get_filename_no_slash path c (List.drop_subset _ _ hc)
  · exact splitOnChar_concat sep new_id _ hsep hrest

/-- C3 amended: for every path accepted by a format's filename handler and
every replacement id containing neither the format's separator character nor
the path separator `'/'` (the latter condition is what the original claim is
missing), replacing the sample id and then extracting it returns exactly the
new id, and the new filename is the new id followed, unchanged, by every
character of the old filename outside the leading sample-id field (the
format suffix included). -/
theorem C3_replace_roundtrip (path sfx new_id : List Char)
    (haccept : sfx.isSuffixOf path = true) (hslash : '/' ∉ new_id) :
    ('.' ∉ new_id →
      ∀ path₂, Data_filename.replace_sample_id path new_id = some path₂ →
        Data_filename.get_sample_id path₂ = some new_id ∧
        ∃ f rest, splitOnChar '.' (get_filename path) = f :: rest ∧
          get_filename path₂ = new_id ++ (get_filename path).drop f.length) ∧
    ('_' ∉ new_id →
      FASTQ_filename.get_sample_id (FASTQ_filename.replace_sample_id path new_id) = new_id ∧
      ∃ f rest, splitOnChar '_' (get_filename path) = f :: rest ∧
        get_filename (FASTQ_filename.replace_sample_id path new_id) =
          new_id ++ (get_filename path).drop f.length) := by
  have hslash' : ∀ c ∈ new_id, c ≠ '/' := by
    intro c hc he
    exact hslash (he ▸ hc)
  constructor
  · intro hdot path₂ hrepl
    have hdot' : ∀ c ∈ new_id, c ≠ '.' := by
      intro c hc he
      exact hdot (he ▸ hc)
    obtain ⟨f, rest, hsplit, hfile, rest₂, hsplit₂⟩ := replace_core '.' path new_id hdot' hslash'
    have hsome : Data_filename.split_sample_id path =
        some (f, (get_filename path).drop f.length) := by
      simp [Data_filename.split_sample_id, hsplit]
    have hpath₂ : path₂ =
        pyJoin (get_directory path) (new_id ++ (get_filename path).drop f.length) := by
      rw [Data_filename.replace_sample_id, hsome] at hrepl
      exact (Option.some.injEq _ _ ▸ hrepl).symm
    subst hpath₂
    refine ⟨?_, f, rest, hsplit, hfile⟩
    simp [Data_filename.get_sample_id, Data_filename.split_sample_id, hfile, hsplit₂]
  · intro hund
    have hund' : ∀ c ∈ new_id, c ≠ '_' := by
      intro c hc he
      exact hund (he ▸ hc)
    obtain ⟨f, rest, hsplit, hfile, rest₂, hsplit₂⟩ := replace_core '_' path new_id hund' hslash'
    have hrepl : FASTQ_filename.replace_sample_id path new_id =
        pyJoin (get_directory path) (new_id ++ (get_filename path).drop f.length) := by
      simp [FASTQ_filename.replace_sample_id, hsplit]
    rw [hrepl]
    refine ⟨?_, f, rest, hsplit, hfile⟩
    simp [FASTQ_filename.get_sample_id, hfile, hsplit₂]

/-- Witness for C3 on concrete FASTQ and BAM paths. -/
theorem C3_replace_roundtrip_witness :
    FASTQ_filename.get_sample_id
      (FASTQ_filename.replace_sample_id "/d/S1_R1.fastq.gz".toList "4821".toList) =
      "4821".toList := by
  have h := (C3_replace_roundtrip "/d/S1_R1.fastq.gz".toList FASTQ_SUFFIX "4821".toList
    (by decide) (by decide)).2 (by decide)
  exact h.1

/-- Counterexample for C3 as stated: the replacement id `"a/b"` contains no
`'_'` (the FASTQ separator), yet after replacement the extracted sample id is
`"b"`, not `"a/b"`, because the id's `'/'` shifts the filename boundary; the
original claim quantifies over every id avoiding only the separator
character. -/
theorem C3_replace_roundtrip_counterexample :
    ('_' ∉ "a/b".toList) ∧
    FASTQ_SUFFIX.isSuffixOf "/d/S1_R1.fastq.gz".toList = true ∧
    FASTQ_filename.get_sample_id
      (FASTQ_filename.replace_sample_id "/d/S1_R1.fastq.gz".toList "a/b".toList) ≠
      "a/b".toList := by decide

theorem replace_field_eq (path new_id : List Char) (s e : Nat)
    (hse : s ≤ e) (hlt : e + 1 < (splitOnChar '_' (get_filename path)).length) :
    FASTQ_filename.replace_field path new_id s e =
      pyJoin (get_directory path)
        (joinSep '_' ((splitOnChar '_' (get_filename path)).take s ++ [new_id] ++
          (splitOnChar '_' (get_filename path)).drop (e + 1))) := by
  set fields := splitOnChar '_' (get_filename path) with hfieldsdef
  set A := fields.take s with hA
  set B := (fields.drop s).take (e + 1 - s) with hB
  set C := fields.drop (e + 1) with hC
  have hdropdrop : (fields.drop s).drop (e + 1 - s) = C := by
    rw [List.drop_drop, hC]
    congr 1
    omega
  have hBC : B ++ C = fields.drop s := by
    rw [← hdropdrop, hB]
    exact List.take_append_drop _ _
  have hfields : fields = (A ++ B) ++ C := by
    rw [List.append_assoc, hBC, hA]
    exact (List.take_append_drop s fields).symm
  have hCne : C ≠ [] := by
    intro h
    have := congrArg List.length h
    simp only [hC, List.length_drop, List.length_nil] at this
    omega
  have hBne : B ≠ [] := by
    intro h
    have := congrArg List.length h
    simp only [hB, List.length_take, List.length_drop, List.length_nil] at this
    omega
  obtain ⟨B', b, hBsplit⟩ : ∃ B' b, B = B' ++ [b] := by
    rcases List.eq_nil_or_concat B with h | ⟨B', b, h⟩
    · exact absurd h hBne
    · exact ⟨B', b, by simpa using h⟩
  have hfile : get_filename path = sepTerminated '_' (A ++ B) ++ joinSep '_' C := by
    conv_lhs => rw [← joinSep_splitOnChar '_' (get_filename path), ← hfieldsdef, hfields]
    exact joinSep_append_of_ne_nil '_' (A ++ B) C hCne
  have hQ : sepTerminated '_' (A ++ B) =
      (sepTerminated '_' (A ++ B') ++ b) ++ ['_'] := by
    rw [hBsplit, show A ++ (B' ++ [b]) = (A ++ B') ++ [b] by simp [List.append_assoc]]
    rw [sepTerminated_append]
    simp [sepTerminated]
  have hlenQ : (sepTerminated '_' A ++ sepTerminated '_' B).length - 1 =
      (sepTerminated '_' (A ++ B') ++ b).length := by
    rw [← sepTerminated_append, hQ]
    simp
  have hdrop : (get_filename path).drop
      ((sepTerminated '_' A ++ sepTerminated '_' B).length - 1) = '_' :: joinSep '_' C := by
    rw [hfile, hQ, hlenQ, List.append_assoc, List.drop_left]
    rfl
  have hrhs : joinSep '_' (A ++ [new_id] ++ C) =
      sepTerminated '_' A ++ (new_id ++ '_' :: joinSep '_' C) := by
    rw [List.append_assoc, joinSep_append_of_ne_nil '_' A ([new_id] ++ C) (by simp)]
    congr 1
    rw [List.singleton_append, joinSep_cons '_' new_id C hCne]
  rw [FASTQ_filename.replace_field]
  simp only [← hfieldsdef, ← hA, ← hB]
  rw [hdrop, hrhs]
  congr 1
  simp [List.append_assoc]

/-- C6 amended: for every `'_'`-separated filename and every contiguous field
index range that ends before the final (suffix-bearing) field,
`FASTQ_filename.replace_field` replaces exactly the fields in the range with
the single replacement token, leaving every field before the range, every
field after the range, and hence the format suffix untouched; composed with
`replace_sample_id` this yields exactly the spec's example rewrite.  (The
original claim's "every valid contiguous field index range" also admits
ranges ending at the final field, where the suffix is destroyed — see the
counterexample.) -/
theorem C6_replace_field :
    (∀ (path new_id : List Char) (s e : Nat),
      s ≤ e → e + 1 < (splitOnChar '_' (get_filename path)).length →
      FASTQ_filename.replace_field path new_id s e =
        pyJoin (get_directory path)
          (joinSep '_' ((splitOnChar '_' (get_filename path)).take s ++ [new_id] ++
            (splitOnChar '_' (get_filename path)).drop (e + 1)))) ∧
    FASTQ_filename.replace_sample_id
      (FASTQ_filename.replace_field
        "/d/S1_AGRF_024_HG3JKBCXX_CGTACTAG_L001_R1.fastq.gz".toList "qz7k2".toList 1 2)
      "4821".toList =
      "/d/4821_qz7k2_HG3JKBCXX_CGTACTAG_L001_R1.fastq.gz".toList :=
  ⟨replace_field_eq, by decide⟩

/-- Witness for C6 at the spec's example: obfuscating the batch span (fields
1-2) of the example sequence filename. -/
theorem C6_replace_field_witness :
    FASTQ_filename.replace_field
      "/d/S1_AGRF_024_HG3JKBCXX_CGTACTAG_L001_R1.fastq.gz".toList "qz7k2".toList 1 2 =
      pyJoin (get_directory "/d/S1_AGRF_024_HG3JKBCXX_CGTACTAG_L001_R1.fastq.gz".toList)
        (joinSep '_'
          ((splitOnChar '_'
            (get_filename "/d/S1_AGRF_024_HG3JKBCXX_CGTACTAG_L001_R1.fastq.gz".toList)).take 1 ++
          ["qz7k2".toList] ++
          (splitOnChar '_'
            (get_filename "/d/S1_AGRF_024_HG3JKBCXX_CGTACTAG_L001_R1.fastq.gz".toList)).drop 3)) :=
  C6_replace_field.1 "/d/S1_AGRF_024_HG3JKBCXX_CGTACTAG_L001_R1.fastq.gz".toList
    "qz7k2".toList 1 2 (by decide) (by decide)

/-- Counterexample for C6 as stated: index 3 is a valid field index of the
accepted file `S1_AGRF_024_R1.fastq.gz` (it has four `'_'`-fields), yet
replacing the field range 3-3 yields a path that no longer ends in the
format suffix — the suffix is not left untouched for every valid range. -/
theorem C6_replace_field_counterexample :
    3 < (splitOnChar '_' (get_filename "/d/S1_AGRF_024_R1.fastq.gz".toList)).length ∧
    FASTQ_SUFFIX.isSuffixOf "/d/S1_AGRF_024_R1.fastq.gz".toList = true ∧
    FASTQ_SUFFIX.isSuffixOf
      (FASTQ_filename.replace_field "/d/S1_AGRF_024_R1.fastq.gz".toList "X".toList 3 3) =
      false := by decide
